import Mathlib

/-!
Shallow embedding of synthcity plugins core distribution module
(src/synthcity/plugins/core/distribution.py) and proofs about it.

Modelling conventions:
- Python floats are modelled as rationals; value equality and ordering on
  them is exact (no claim below depends on rounding).
- Datetimes and timedeltas are modelled as integer microseconds since the
  epoch, matching the microsecond granularity of the source defaults.
- The process-wide numpy generator is modelled as a natural-number state
  threaded through every sampling call; np.random.seed is a function from
  the integer seed to a fresh state, and each elementary draw consumes the
  current state and steps it with a concrete LCG.  numpy raising
  ValueError on an empty support is modelled as returning no values.
- pd.Series.value_counts(dropna=False) is modelled as a list of
  (key, count) pairs over the distinct observed values, sorted by count
  in descending order (stable on ties).
-/

namespace Synthcity

/-- Model of the process-wide numpy generator state: one step of a
concrete 64-bit LCG. -/
def lcg (s : Nat) : Nat :=
  (6364136223846793005 * s + 1442695040888963407) % 2 ^ 64

/-- Model of np.random.seed: the state the global generator is put into
by seeding with a given integer seed. -/
def npSeed (seed : Nat) : Nat :=
  lcg seed

/-- One uniform draw from the unit interval, as numpy produces it from a
53-bit mantissa of the current generator state. -/
def ratUnit (g : Nat) : ℚ :=
  ((g % 2 ^ 53 : Nat) : ℚ) / (2 ^ 53 : ℚ)

section ValueCounts

variable {V : Type} [DecidableEq V]

/-- Distinct values of a list in order of first appearance, as the index
of pd.Series.value_counts is keyed. -/
def distinctVals : List V → List V
  | [] => []
  | x :: xs => x :: (distinctVals xs).filter (fun y => y ≠ x)

/-- Insert a keyed count into a list sorted by descending count, keeping
earlier entries first on ties. -/
def insertByCount (p : V × Nat) : List (V × Nat) → List (V × Nat)
  | [] => [p]
  | q :: rest => if q.2 ≤ p.2 then p :: q :: rest else q :: insertByCount p rest

/-- Stable sort by descending count. -/
def sortByCountDesc : List (V × Nat) → List (V × Nat)
  | [] => []
  | p :: rest => insertByCount p (sortByCountDesc rest)

/-- Number of occurrences of a value among the raw observations. -/
def countOcc (x : V) (data : List V) : Nat :=
  data.count x

/-- Model of pd.Series.value_counts(dropna=False): frequency table over
the distinct observed values, sorted by count in descending order. -/
def valueCounts (data : List V) : List (V × Nat) :=
  sortByCountDesc ((distinctVals data).map (fun v => (v, countOcc v data)))

/-- Index of the frequency table: the observed keys. -/
def marginalKeys (m : List (V × Nat)) : List V :=
  m.map Prod.fst

/-- Sum of the stored counts. -/
def totalCount (m : List (V × Nat)) : Nat :=
  (m.map Prod.snd).sum

end ValueCounts

section MinMax

variable {V : Type} [LinearOrder V]

/-- Minimum of a pandas index, model of Index.min (None on an empty
index, where pandas would produce NaN). -/
def listMin : List V → Option V
  | [] => none
  | x :: xs => some (xs.foldl min x)

/-- Maximum of a pandas index, model of Index.max. -/
def listMax : List V → Option V
  | [] => none
  | x :: xs => some (xs.foldl max x)

end MinMax

/-- A Python value that can appear among categorical choices: a float, an
int, or any other object (modelled by its string form). -/
inductive CVal where
  | float : ℚ → CVal
  | int : Int → CVal
  | obj : String → CVal
deriving DecidableEq

instance : Inhabited CVal := ⟨CVal.int 0⟩

/-- The isinstance(v, float) test of the dtype loop. -/
def CVal.isFloatTag : CVal → Bool
  | .float _ => true
  | _ => false

/-- The elif isinstance(v, int) test of the dtype loop. -/
def CVal.isIntTag : CVal → Bool
  | .int _ => true
  | _ => false

/-- The else branch of the dtype loop: neither float nor int. -/
def CVal.isObjTag : CVal → Bool
  | .obj _ => true
  | _ => false

/-- Python comparison v < w between two choice values: numbers compare
numerically, strings lexicographically, and a number against a string
raises TypeError (modelled as none). -/
def cvalLt : CVal → CVal → Option Bool
  | .int a, .int b => some (decide (a < b))
  | .int a, .float b => some (decide ((a : ℚ) < b))
  | .float a, .int b => some (decide (a < (b : ℚ)))
  | .float a, .float b => some (decide (a < b))
  | .obj a, .obj b => some (decide (a < b))
  | _, _ => none

/-- Python min over a running best: replace the best whenever the next
item compares strictly below it, propagating TypeError. -/
def pyMinFold (cur : CVal) : List CVal → Option CVal
  | [] => some cur
  | y :: ys => do
    let b ← cvalLt y cur
    pyMinFold (if b then y else cur) ys

/-- Python builtin min over a list (ValueError on empty, modelled none). -/
def pyMinList : List CVal → Option CVal
  | [] => none
  | x :: xs => pyMinFold x xs

/-- Python max over a running best. -/
def pyMaxFold (cur : CVal) : List CVal → Option CVal
  | [] => some cur
  | y :: ys => do
    let b ← cvalLt cur y
    pyMaxFold (if b then y else cur) ys

/-- Python builtin max over a list. -/
def pyMaxList : List CVal → Option CVal
  | [] => none
  | x :: xs => pyMaxFold x xs

/-- Stable insertion into a Python-sorted list, propagating TypeError of
an unorderable comparison. -/
def pyInsertSorted (x : CVal) : List CVal → Option (List CVal)
  | [] => some [x]
  | y :: ys => do
    let b ← cvalLt x y
    if b then
      pure (x :: y :: ys)
    else do
      pure (y :: (← pyInsertSorted x ys))

/-- Python builtin sorted, as a stable insertion sort under cvalLt. -/
def pySorted : List CVal → Option (List CVal)
  | [] => some []
  | x :: xs => do pyInsertSorted x (← pySorted xs)

/-- The abstract Distribution base class: the shared fields.  The data
field holds the raw per-row observations handed to the constructor; the
marginal validator replaces it by a frequency table.  Raw keys are
Option CVal, where none stands for a missing value (NaN). -/
structure Distribution where
  name : String
  data : Option (List (Option CVal))
  random_state : Nat
  marginal_distribution : Option (List (Option CVal × Nat))
deriving DecidableEq

/-- Construction of the base Distribution fields: the marginal validator
builds value_counts(dropna=False) from the raw data and deletes the data
entry, leaving every other supplied field unchanged. -/
def mkDistribution (name : String) (data : Option (List (Option CVal)))
    (random_state : Nat) (marginal0 : Option (List (Option CVal × Nat))) :
    Distribution :=
  match data with
  | none => ⟨name, none, random_state, marginal0⟩
  | some ds => ⟨name, none, random_state, some (valueCounts ds)⟩

/-- CategoricalDistribution: finite discrete choice set. -/
structure CategoricalDistribution where
  name : String
  random_state : Nat
  marginal_distribution : Option (List (CVal × Nat))
  choices : List CVal
deriving DecidableEq

/-- FloatDistribution: bounded real interval. -/
structure FloatDistribution where
  name : String
  random_state : Nat
  marginal_distribution : Option (List (ℚ × Nat))
  low : ℚ
  high : ℚ
deriving DecidableEq

/-- LogDistribution: subclass of FloatDistribution with positive default
bounds and log2-space sampling; same fields. -/
structure LogDistribution where
  name : String
  random_state : Nat
  marginal_distribution : Option (List (ℚ × Nat))
  low : ℚ
  high : ℚ
deriving DecidableEq

/-- IntegerDistribution: bounded stepped integer range. -/
structure IntegerDistribution where
  name : String
  random_state : Nat
  marginal_distribution : Option (List (Int × Nat))
  low : Int
  high : Int
  step : Int
deriving DecidableEq

/-- IntLogDistribution: subclass of IntegerDistribution with step forced
to 1 and log2-space sampling; same fields. -/
structure IntLogDistribution where
  name : String
  random_state : Nat
  marginal_distribution : Option (List (Int × Nat))
  low : Int
  high : Int
  step : Int
deriving DecidableEq

/-- DatetimeDistribution: bounded stepped timestamp range with an offset
tolerance; datetimes and timedeltas in integer microseconds. -/
structure DatetimeDistribution where
  name : String
  random_state : Nat
  marginal_distribution : Option (List (Int × Nat))
  low : Int
  high : Int
  step : Int
  offset : Int
deriving DecidableEq

/-- The categorical choices validator in the data path: when a marginal
is present the choices are the marginal index, overriding any supplied
choices list. -/
def mkCategoricalFromData (name : String) (data : List CVal)
    (random_state : Nat) (choices0 : List CVal) : CategoricalDistribution :=
  let m := valueCounts data
  { name := name, random_state := random_state,
    marginal_distribution := some m, choices := marginalKeys m }

/-- The categorical choices validator in the explicit path: no data, so
the supplied choices must be non-empty and are stored sorted and
de-duplicated (Python sorted over a set; a mixed unorderable list raises
TypeError). -/
def mkCategoricalFromChoices (name : String) (choices : List CVal)
    (random_state : Nat) : Except String CategoricalDistribution :=
  if choices.isEmpty then
    .error "Invalid choices for CategoricalDistribution. Provide data or choices params"
  else
    match pySorted (distinctVals choices) with
    | none => .error "TypeError: unorderable choices"
    | some s =>
      .ok { name := name, random_state := random_state,
            marginal_distribution := none, choices := s }

/-- The low and high validators shared by the ordered variants: when a
marginal is present the bounds are the min and max of its index,
overriding the supplied bounds (empty data would give NaN bounds, which
is outside the model). -/
def resolveBounds {V : Type} [DecidableEq V] [LinearOrder V]
    (data : Option (List V)) (low high : V) :
    Except String (Option (List (V × Nat)) × V × V) :=
  match data with
  | none => .ok (none, low, high)
  | some ds =>
    let m := valueCounts ds
    match listMin (marginalKeys m), listMax (marginalKeys m) with
    | some lo, some hi => .ok (some m, lo, hi)
    | _, _ => .error "empty data gives NaN bounds"

/-- FloatDistribution construction: only the marginal and bound
validators run; there is no validation relating low and high. -/
def mkFloatDistribution (name : String) (data : Option (List ℚ))
    (random_state : Nat) (low high : ℚ) : Except String FloatDistribution := do
  let (m, lo, hi) ← resolveBounds data low high
  pure { name := name, random_state := random_state,
         marginal_distribution := m, low := lo, high := hi }

/-- LogDistribution construction: inherits the FloatDistribution
validators unchanged; in particular no positivity check on the bounds. -/
def mkLogDistribution (name : String) (data : Option (List ℚ))
    (random_state : Nat) (low high : ℚ) : Except String LogDistribution := do
  let (m, lo, hi) ← resolveBounds data low high
  pure { name := name, random_state := random_state,
         marginal_distribution := m, low := lo, high := hi }

/-- IntegerDistribution construction: bound validators plus the step
validator, which rejects step < 1; no low/high relation is checked. -/
def mkIntegerDistribution (name : String) (data : Option (List Int))
    (random_state : Nat) (low high step : Int) :
    Except String IntegerDistribution := do
  let (m, lo, hi) ← resolveBounds data low high
  if step < 1 then
    .error "Step must be greater than 0"
  else
    pure { name := name, random_state := random_state,
           marginal_distribution := m, low := lo, high := hi, step := step }

/-- IntLogDistribution construction: its own step validator rejects any
step other than 1; bounds are not checked for positivity. -/
def mkIntLogDistribution (name : String) (data : Option (List Int))
    (random_state : Nat) (low high step : Int) :
    Except String IntLogDistribution := do
  let (m, lo, hi) ← resolveBounds data low high
  if step ≠ 1 then
    .error "Step must be 1 for IntLogDistribution"
  else
    pure { name := name, random_state := random_state,
           marginal_distribution := m, low := lo, high := hi, step := step }

/-- DatetimeDistribution construction: bound validators only; step and
offset are stored as supplied. -/
def mkDatetimeDistribution (name : String) (data : Option (List Int))
    (random_state : Nat) (low high step offset : Int) :
    Except String DatetimeDistribution := do
  let (m, lo, hi) ← resolveBounds data low high
  pure { name := name, random_state := random_state,
         marginal_distribution := m, low := lo, high := hi,
         step := step, offset := offset }

/-- Probabilities of the marginal: each stored count divided by the sum
of the counts. -/
def marginalProbs {V : Type} (m : List (V × Nat)) : List ℚ :=
  (m.map Prod.snd).map (fun c : Nat => (c : ℚ) / ((m.map Prod.snd).sum : ℚ))

/-- Running sums from an accumulator. -/
def cumsumFrom (acc : ℚ) : List ℚ → List ℚ
  | [] => []
  | x :: xs => (acc + x) :: cumsumFrom (acc + x) xs

/-- Cumulative sums, as numpy cumsum over the probability vector. -/
def cumsum (l : List ℚ) : List ℚ :=
  cumsumFrom 0 l

/-- Index of the first cumulative weight strictly above the uniform draw
(searchsorted right on the cdf, which is how np.random.choice with a
probability vector selects a state). -/
def searchIdx (u : ℚ) : List ℚ → Nat
  | [] => 0
  | c :: cs => if u < c then 0 else searchIdx u cs + 1

/-- Weighted draws with replacement: count states selected by inverse
cdf on successive uniform draws. -/
def npChoiceWeighted {V : Type} (dflt : V) (states : List V) (cdf : List ℚ) :
    Nat → Nat → List V × Nat
  | 0, g => ([], g)
  | c + 1, g =>
    let i := searchIdx (ratUnit g) cdf
    let (rest, gf) := npChoiceWeighted dflt states cdf c (lcg g)
    (states.getD i dflt :: rest, gf)

/-- Uniform integer draws below n, as np.random.choice(n, count); numpy
raises ValueError when n = 0, modelled as no values. -/
def npChoiceNAux (n : Nat) : Nat → Nat → List Nat × Nat
  | 0, g => ([], g)
  | c + 1, g =>
    let (rest, gf) := npChoiceNAux n c (lcg g)
    (g % n :: rest, gf)

/-- np.random.choice(n, count) on the modelled generator. -/
def npChoiceN (n count g : Nat) : List Nat × Nat :=
  if n = 0 then ([], g) else npChoiceNAux n count g

/-- count uniform draws from the unit interval, as np.random.rand. -/
def npRandAux : Nat → Nat → List ℚ × Nat
  | 0, g => ([], g)
  | c + 1, g =>
    let (rest, gf) := npRandAux c (lcg g)
    (ratUnit g :: rest, gf)

/-- np.random.uniform(lo, hi, count). -/
def npUniform (lo hi : ℚ) (count g : Nat) : List ℚ × Nat :=
  let (us, gf) := npRandAux count g
  (us.map (fun u => lo + (hi - lo) * u), gf)

/-- Shared helper Distribution.sample_marginal: reseed the global
generator from random_state, return none when no marginal is stored,
otherwise count draws from the observed states weighted by empirical
frequency (numpy raises on an empty support, modelled as no values). -/
def sample_marginal {V : Type} (dflt : V) (marginal : Option (List (V × Nat)))
    (random_state count g : Nat) : Option (List V) × Nat :=
  let g1 := npSeed random_state
  match marginal with
  | none => (none, g1)
  | some m =>
    if m.isEmpty then (some [], g1)
    else
      let (xs, g2) :=
        npChoiceWeighted dflt (marginalKeys m) (cumsum (marginalProbs m)) count g1
      (some xs, g2)

/-- The common shape of every sample method: return the marginal draws
when present, otherwise fall back to the variant strategy. -/
def marginalOrElse {V : Type} (mres : Option (List V) × Nat)
    (fallback : Nat → List V × Nat) : List V × Nat :=
  match mres with
  | (some xs, g2) => (xs, g2)
  | (none, g2) => fallback g2

/-- CategoricalDistribution.sample: reseed, prefer the marginal, else a
uniform draw with replacement over choices. -/
def CategoricalDistribution.sample (d : CategoricalDistribution)
    (count g : Nat) : List CVal × Nat :=
  let g1 := npSeed d.random_state
  marginalOrElse
    (sample_marginal default d.marginal_distribution d.random_state count g1)
    (fun g2 =>
      let (idxs, g3) := npChoiceN d.choices.length count g2
      (idxs.map (fun i => d.choices.getD i default), g3))

/-- FloatDistribution.sample: reseed, prefer the marginal, else uniform
real draws in the declared interval. -/
def FloatDistribution.sample (d : FloatDistribution) (count g : Nat) :
    List ℚ × Nat :=
  let g1 := npSeed d.random_state
  marginalOrElse
    (sample_marginal 0 d.marginal_distribution d.random_state count g1)
    (fun g2 => npUniform d.low d.high count g2)

/-- LogDistribution.sample: reseed, prefer the marginal, else uniform in
log2-space then exponentiate base 2.  The transcendental log2 and exp2
on floats are taken as parameters of the model. -/
def LogDistribution.sampleWith (log2f exp2f : ℚ → ℚ) (d : LogDistribution)
    (count g : Nat) : List ℚ × Nat :=
  let g1 := npSeed d.random_state
  marginalOrElse
    (sample_marginal 0 d.marginal_distribution d.random_state count g1)
    (fun g2 =>
      let (us, g3) := npUniform (log2f d.low) (log2f d.high) count g2
      (us.map exp2f, g3))

/-- IntegerDistribution.sample: reseed, prefer the marginal, else draw a
grid index below steps + 1, with steps the floor quotient of the span by
the step, and map it to low + index * step. -/
def IntegerDistribution.sample (d : IntegerDistribution) (count g : Nat) :
    List Int × Nat :=
  let g1 := npSeed d.random_state
  marginalOrElse
    (sample_marginal 0 d.marginal_distribution d.random_state count g1)
    (fun g2 =>
      let steps : Int := Int.fdiv (d.high - d.low) d.step
      let (idxs, g3) := npChoiceN (steps + 1).toNat count g2
      (idxs.map (fun k : Nat => (k : Int) * d.step + d.low), g3))

/-- numpy astype(int): truncation toward zero. -/
def ratTrunc (q : ℚ) : Int :=
  if 0 ≤ q then Int.floor q else -Int.floor (-q)

/-- IntLogDistribution.sample: reseed, prefer the marginal, else uniform
in log2-space, exponentiate base 2 and truncate to integer. -/
def IntLogDistribution.sampleWith (log2f exp2f : ℚ → ℚ)
    (d : IntLogDistribution) (count g : Nat) : List Int × Nat :=
  let g1 := npSeed d.random_state
  marginalOrElse
    (sample_marginal 0 d.marginal_distribution d.random_state count g1)
    (fun g2 =>
      let (us, g3) := npUniform (log2f (d.low : ℚ)) (log2f (d.high : ℚ)) count g2
      ((us.map exp2f).map ratTrunc, g3))

/-- np.round: round half to even. -/
def npRound (q : ℚ) : Int :=
  let f := Int.floor q
  if q - f < 1 / 2 then f
  else if q - f > 1 / 2 then f + 1
  else if f % 2 = 0 then f else f + 1

/-- DatetimeDistribution.sample: reseed, prefer the marginal, else pick
a random grid index per draw over n = span div step + 1 grid points and
map back to low + index * step. -/
def DatetimeDistribution.sample (d : DatetimeDistribution) (count g : Nat) :
    List Int × Nat :=
  let g1 := npSeed d.random_state
  marginalOrElse
    (sample_marginal 0 d.marginal_distribution d.random_state count g1)
    (fun g2 =>
      let n : Int := Int.fdiv (d.high - d.low) d.step + 1
      let (us, g3) := npRandAux count g2
      (us.map (fun u => d.low + npRound (u * (n : ℚ) - 1 / 2) * d.step), g3))

/-- CategoricalDistribution.has: exact membership in choices. -/
def CategoricalDistribution.has (d : CategoricalDistribution) (v : CVal) : Bool :=
  decide (v ∈ d.choices)

/-- FloatDistribution.has: low ≤ v ≤ high. -/
def FloatDistribution.has (d : FloatDistribution) (v : ℚ) : Bool :=
  decide (d.low ≤ v) && decide (v ≤ d.high)

/-- IntegerDistribution.has: low ≤ v ≤ high; the step grid is not
consulted. -/
def IntegerDistribution.has (d : IntegerDistribution) (v : Int) : Bool :=
  decide (d.low ≤ v) && decide (v ≤ d.high)

/-- DatetimeDistribution.has: low ≤ v ≤ high without offset tolerance. -/
def DatetimeDistribution.has (d : DatetimeDistribution) (v : Int) : Bool :=
  decide (d.low ≤ v) && decide (v ≤ d.high)

/-- Value carried by a constraint rule. -/
inductive RuleVal where
  | num : ℚ → RuleVal
  | int : Int → RuleVal
  | str : String → RuleVal
  | dtv : Int → RuleVal
  | choiceList : List CVal → RuleVal
deriving DecidableEq

/-- One (feature, operator, value) rule of the external Constraints
collaborator. -/
structure ConstraintRule where
  feature : String
  op : String
  val : RuleVal
deriving DecidableEq

/-- The opaque Constraints value: an ordered list of rules. -/
structure Constraints where
  rules : List ConstraintRule
deriving DecidableEq

/-- CategoricalDistribution.as_constraint: the single in rule. -/
def CategoricalDistribution.as_constraint (d : CategoricalDistribution) :
    Constraints :=
  ⟨[⟨d.name, "in", RuleVal.choiceList d.choices⟩]⟩

/-- FloatDistribution.as_constraint: le, ge and dtype float rules. -/
def FloatDistribution.as_constraint (d : FloatDistribution) : Constraints :=
  ⟨[⟨d.name, "le", RuleVal.num d.high⟩,
    ⟨d.name, "ge", RuleVal.num d.low⟩,
    ⟨d.name, "dtype", RuleVal.str "float"⟩]⟩

/-- View of a LogDistribution through its FloatDistribution base, for
the methods it inherits unchanged. -/
def LogDistribution.toFloat (d : LogDistribution) : FloatDistribution :=
  ⟨d.name, d.random_state, d.marginal_distribution, d.low, d.high⟩

/-- LogDistribution.as_constraint: inherited from FloatDistribution. -/
def LogDistribution.as_constraint (d : LogDistribution) : Constraints :=
  d.toFloat.as_constraint

/-- IntegerDistribution.as_constraint: le, ge and dtype int rules. -/
def IntegerDistribution.as_constraint (d : IntegerDistribution) : Constraints :=
  ⟨[⟨d.name, "le", RuleVal.int d.high⟩,
    ⟨d.name, "ge", RuleVal.int d.low⟩,
    ⟨d.name, "dtype", RuleVal.str "int"⟩]⟩

/-- View of an IntLogDistribution through its IntegerDistribution base. -/
def IntLogDistribution.toInteger (d : IntLogDistribution) : IntegerDistribution :=
  ⟨d.name, d.random_state, d.marginal_distribution, d.low, d.high, d.step⟩

/-- IntLogDistribution.as_constraint: inherited from IntegerDistribution. -/
def IntLogDistribution.as_constraint (d : IntLogDistribution) : Constraints :=
  d.toInteger.as_constraint

/-- DatetimeDistribution.as_constraint: le, ge and dtype datetime rules. -/
def DatetimeDistribution.as_constraint (d : DatetimeDistribution) : Constraints :=
  ⟨[⟨d.name, "le", RuleVal.dtv d.high⟩,
    ⟨d.name, "ge", RuleVal.dtv d.low⟩,
    ⟨d.name, "dtype", RuleVal.str "datetime"⟩]⟩

/-- CategoricalDistribution.dtype: count the element types of choices
into a dict with insertion order object, float, int, then return the
first key with a non-zero count, defaulting to object. -/
def CategoricalDistribution.dtype (d : CategoricalDistribution) : String :=
  let objCount := d.choices.countP (fun v => !v.isFloatTag && !v.isIntTag)
  let floatCount := d.choices.countP CVal.isFloatTag
  let intCount := d.choices.countP (fun v => !v.isFloatTag && v.isIntTag)
  if objCount ≠ 0 then "object"
  else if floatCount ≠ 0 then "float"
  else if intCount ≠ 0 then "int"
  else "object"

/-- A dynamically typed Python comparison value: the result of min or
max on any Distribution variant. -/
inductive PyV where
  | num : ℚ → PyV
  | str : String → PyV
  | dtv : Int → PyV
deriving DecidableEq

/-- Python comparison a <= b across dynamic types: numbers compare
numerically, strings lexicographically, datetimes chronologically; any
mixed comparison raises TypeError, modelled as none. -/
def pyLe : PyV → PyV → Option Bool
  | .num a, .num b => some (decide (a ≤ b))
  | .str a, .str b => some (decide (a ≤ b))
  | .dtv a, .dtv b => some (decide (a ≤ b))
  | _, _ => none

/-- Lift a choice value into the comparison domain: Python ints and
floats compare numerically with each other. -/
def CVal.toPyV : CVal → PyV
  | .float q => .num q
  | .int n => .num (n : ℚ)
  | .obj s => .str s

/-- The closed set of Distribution variants, for the duck-typed
dispatch of includes on an arbitrary other Distribution. -/
inductive AnyDist where
  | cat : CategoricalDistribution → AnyDist
  | flt : FloatDistribution → AnyDist
  | logd : LogDistribution → AnyDist
  | intd : IntegerDistribution → AnyDist
  | intlog : IntLogDistribution → AnyDist
  | dtd : DatetimeDistribution → AnyDist

/-- The min method of each variant: Categorical takes the Python min of
its choices (TypeError on unorderable, ValueError on empty); every
ordered variant returns its low bound. -/
def AnyDist.minP : AnyDist → Option PyV
  | .cat c => (pyMinList c.choices).map CVal.toPyV
  | .flt f => some (.num f.low)
  | .logd l => some (.num l.low)
  | .intd i => some (.num (i.low : ℚ))
  | .intlog i => some (.num (i.low : ℚ))
  | .dtd d => some (.dtv d.low)

/-- The max method of each variant. -/
def AnyDist.maxP : AnyDist → Option PyV
  | .cat c => (pyMaxList c.choices).map CVal.toPyV
  | .flt f => some (.num f.high)
  | .logd l => some (.num l.high)
  | .intd i => some (.num (i.high : ℚ))
  | .intlog i => some (.num (i.high : ℚ))
  | .dtd d => some (.dtv d.high)

/-- CategoricalDistribution.includes: isinstance check first, then the
subset test on choices. -/
def CategoricalDistribution.includes (d : CategoricalDistribution)
    (other : AnyDist) : Bool :=
  match other with
  | .cat o => o.choices.all (fun v => decide (v ∈ d.choices))
  | _ => false

/-- FloatDistribution.includes: self.min() <= other.min() and
other.max() <= self.max(), with Python short-circuit evaluation and no
check of the variant of other. -/
def FloatDistribution.includes (d : FloatDistribution) (other : AnyDist) :
    Option Bool := do
  let omin ← other.minP
  let b1 ← pyLe (.num d.low) omin
  if b1 then do
    let omax ← other.maxP
    pyLe omax (.num d.high)
  else
    pure false

/-- LogDistribution.includes: inherited from FloatDistribution. -/
def LogDistribution.includes (d : LogDistribution) (other : AnyDist) :
    Option Bool :=
  d.toFloat.includes other

/-- IntegerDistribution.includes: same min and max comparison, no
variant check. -/
def IntegerDistribution.includes (d : IntegerDistribution) (other : AnyDist) :
    Option Bool := do
  let omin ← other.minP
  let b1 ← pyLe (.num (d.low : ℚ)) omin
  if b1 then do
    let omax ← other.maxP
    pyLe omax (.num (d.high : ℚ))
  else
    pure false

/-- IntLogDistribution.includes: inherited from IntegerDistribution. -/
def IntLogDistribution.includes (d : IntLogDistribution) (other : AnyDist) :
    Option Bool :=
  d.toInteger.includes other

/-- DatetimeDistribution.includes: min and max comparison widened by the
offset tolerance on both ends, no variant check. -/
def DatetimeDistribution.includes (d : DatetimeDistribution) (other : AnyDist) :
    Option Bool := do
  let omin ← other.minP
  let b1 ← pyLe (.dtv (d.low - d.offset)) omin
  if b1 then do
    let omax ← other.maxP
    pyLe omax (.dtv (d.high + d.offset))
  else
    pure false


/-- Decidable equality of construction results. -/
instance exceptDecEq {ε α : Type} [DecidableEq ε] [DecidableEq α] :
    DecidableEq (Except ε α) := fun x y =>
  match x, y with
  | .ok a, .ok b =>
    if h : a = b then .isTrue (by rw [h]) else .isFalse (by simp [h])
  | .error a, .error b =>
    if h : a = b then .isTrue (by rw [h]) else .isFalse (by simp [h])
  | .ok _, .error _ => .isFalse (by simp)
  | .error _, .ok _ => .isFalse (by simp)

/-! Lemmas about the value-count and index machinery. -/

section ValueCountsLemmas

variable {V : Type} [DecidableEq V]

theorem mem_distinctVals {v : V} : ∀ l : List V, v ∈ distinctVals l ↔ v ∈ l := by
  intro l
  induction l with
  | nil => simp [distinctVals]
  | cons x xs ih =>
    simp only [distinctVals, List.mem_cons, List.mem_filter, ih]
    constructor
    · rintro (rfl | ⟨hv, _⟩)
      · exact Or.inl rfl
      · exact Or.inr hv
    · rintro (rfl | hv)
      · exact Or.inl rfl
      · by_cases hx : v = x
        · exact Or.inl hx
        · exact Or.inr ⟨hv, by simpa using hx⟩

theorem nodup_distinctVals : ∀ l : List V, (distinctVals l).Nodup := by
  intro l
  induction l with
  | nil => simp [distinctVals]
  | cons x xs ih =>
    simp only [distinctVals, List.nodup_cons]
    refine ⟨fun hx => ?_, ih.filter _⟩
    have := (List.mem_filter.mp hx).2
    simp at this

theorem insertByCount_perm (p : V × Nat) :
    ∀ l : List (V × Nat), List.Perm (insertByCount p l) (p :: l) := by
  intro l
  induction l with
  | nil => simp [insertByCount]
  | cons q rest ih =>
    by_cases h : q.2 ≤ p.2
    · simp [insertByCount, h]
    · simp only [insertByCount, if_neg h]
      exact List.Perm.trans (ih.cons q) (List.Perm.swap _ _ _)

theorem sortByCountDesc_perm :
    ∀ l : List (V × Nat), List.Perm (sortByCountDesc l) l := by
  intro l
  induction l with
  | nil => simp [sortByCountDesc]
  | cons p rest ih =>
    exact List.Perm.trans (insertByCount_perm p (sortByCountDesc rest)) (ih.cons p)

theorem valueCounts_perm (data : List V) :
    List.Perm (valueCounts data)
      ((distinctVals data).map (fun v => (v, countOcc v data))) :=
  sortByCountDesc_perm _

theorem marginalKeys_valueCounts_perm (data : List V) :
    List.Perm (marginalKeys (valueCounts data)) (distinctVals data) := by
  have h := (valueCounts_perm data).map Prod.fst
  have h2 : List.map Prod.fst
      ((distinctVals data).map (fun v => (v, countOcc v data))) = distinctVals data := by
    simp [List.map_map, Function.comp_def]
  rw [h2] at h
  exact h

theorem mem_marginalKeys_valueCounts {v : V} (data : List V) :
    v ∈ marginalKeys (valueCounts data) ↔ v ∈ data := by
  rw [(marginalKeys_valueCounts_perm data).mem_iff, mem_distinctVals]

theorem nodup_marginalKeys_valueCounts (data : List V) :
    (marginalKeys (valueCounts data)).Nodup := by
  rw [(marginalKeys_valueCounts_perm data).nodup_iff]
  exact nodup_distinctVals data

theorem valueCounts_counts {data : List V} {p : V × Nat}
    (hp : p ∈ valueCounts data) : p.2 = countOcc p.1 data ∧ 0 < p.2 := by
  have hp₂ := (valueCounts_perm data).mem_iff.mp hp
  obtain ⟨v, hv, rfl⟩ := List.mem_map.mp hp₂
  have hvd : v ∈ data := (mem_distinctVals data).mp hv
  exact ⟨rfl, List.count_pos_iff.mpr hvd⟩
end ValueCountsLemmas

section MinMaxLemmas

variable {V : Type} [LinearOrder V]

theorem foldl_min_mem (xs : List V) (x : V) : xs.foldl min x ∈ x :: xs := by
  induction xs generalizing x with
  | nil => simp
  | cons y ys ih =>
    have h := ih (min x y)
    show List.foldl min (min x y) ys ∈ x :: y :: ys
    rcases List.mem_cons.mp h with h1 | h1
    · rw [h1]
      rcases min_choice x y with hm | hm <;> rw [hm] <;> simp
    · simp [h1]

theorem foldl_min_le (xs : List V) (x : V) : ∀ y ∈ x :: xs, xs.foldl min x ≤ y := by
  induction xs generalizing x with
  | nil => simp
  | cons z zs ih =>
    intro y hy
    have hbase := ih (min x z)
    rcases List.mem_cons.mp hy with rfl | hy2
    · exact le_trans (hbase _ (List.mem_cons_self _ _)) (min_le_left _ _)
    · rcases List.mem_cons.mp hy2 with rfl | hy3
      · exact le_trans (hbase _ (List.mem_cons_self _ _)) (min_le_right _ _)
      · exact hbase _ (List.mem_cons.mpr (Or.inr hy3))

theorem foldl_max_mem (xs : List V) (x : V) : xs.foldl max x ∈ x :: xs := by
  induction xs generalizing x with
  | nil => simp
  | cons y ys ih =>
    have h := ih (max x y)
    show List.foldl max (max x y) ys ∈ x :: y :: ys
    rcases List.mem_cons.mp h with h1 | h1
    · rw [h1]
      rcases max_choice x y with hm | hm <;> rw [hm] <;> simp
    · simp [h1]

theorem foldl_le_max (xs : List V) (x : V) : ∀ y ∈ x :: xs, y ≤ xs.foldl max x := by
  induction xs generalizing x with
  | nil => simp
  | cons z zs ih =>
    intro y hy
    have hbase := ih (max x z)
    rcases List.mem_cons.mp hy with rfl | hy2
    · exact le_trans (le_max_left _ _) (hbase _ (List.mem_cons_self _ _))
    · rcases List.mem_cons.mp hy2 with rfl | hy3
      · exact le_trans (le_max_right _ _) (hbase _ (List.mem_cons_self _ _))
      · exact hbase _ (List.mem_cons.mpr (Or.inr hy3))

theorem listMin_spec {l : List V} {m : V} (h : listMin l = some m) :
    m ∈ l ∧ ∀ y ∈ l, m ≤ y := by
  cases l with
  | nil => simp [listMin] at h
  | cons x xs =>
    simp only [listMin, Option.some.injEq] at h
    subst h
    exact ⟨foldl_min_mem xs x, foldl_min_le xs x⟩

theorem listMax_spec {l : List V} {m : V} (h : listMax l = some m) :
    m ∈ l ∧ ∀ y ∈ l, y ≤ m := by
  cases l with
  | nil => simp [listMax] at h
  | cons x xs =>
    simp only [listMax, Option.some.injEq] at h
    subst h
    exact ⟨foldl_max_mem xs x, foldl_le_max xs x⟩

theorem listMin_isSome {l : List V} (h : l ≠ []) : ∃ m, listMin l = some m := by
  cases l with
  | nil => exact absurd rfl h
  | cons x xs => exact ⟨xs.foldl min x, rfl⟩

theorem listMax_isSome {l : List V} (h : l ≠ []) : ∃ m, listMax l = some m := by
  cases l with
  | nil => exact absurd rfl h
  | cons x xs => exact ⟨xs.foldl max x, rfl⟩
end MinMaxLemmas

theorem mem_marginalKeys_nonempty {V : Type} [DecidableEq V]
    {ds : List V} (h : ds ≠ []) : marginalKeys (valueCounts ds) ≠ [] := by
  cases ds with
  | nil => exact absurd rfl h
  | cons x xs =>
    intro hk
    have hx : x ∈ marginalKeys (valueCounts (x :: xs)) :=
      (mem_marginalKeys_valueCounts _).mpr (List.mem_cons_self _ _)
    rw [hk] at hx
    exact List.not_mem_nil _ hx

/-- Resolution of bounds from supplied data: the marginal is the value
count table and the bounds are the extrema of the observed keys. -/
theorem resolveBounds_data_spec {V : Type} [DecidableEq V] [LinearOrder V]
    (ds : List V) (lo0 hi0 : V) (h : ds ≠ []) :
    ∃ lo hi, resolveBounds (some ds) lo0 hi0 = .ok (some (valueCounts ds), lo, hi) ∧
      lo ∈ ds ∧ hi ∈ ds ∧ ∀ x ∈ ds, lo ≤ x ∧ x ≤ hi := by
  have hk : marginalKeys (valueCounts ds) ≠ [] := mem_marginalKeys_nonempty h
  obtain ⟨lo, hlo⟩ := listMin_isSome hk
  obtain ⟨hi, hhi⟩ := listMax_isSome hk
  obtain ⟨hlomem, hlole⟩ := listMin_spec hlo
  obtain ⟨hhimem, hhile⟩ := listMax_spec hhi
  refine ⟨lo, hi, ?_, ?_, ?_, ?_⟩
  · simp only [resolveBounds, hlo, hhi]
  · exact (mem_marginalKeys_valueCounts ds).mp hlomem
  · exact (mem_marginalKeys_valueCounts ds).mp hhimem
  · intro x hx
    have hxk := (mem_marginalKeys_valueCounts ds).mpr hx
    exact ⟨hlole x hxk, hhile x hxk⟩

/-- C9: raw data supplied at construction is consumed exactly once into
the marginal frequency table, keyed by the distinct observed values with
a key for missing values; the data is not retained on the constructed
object and name and random_state pass through unchanged. -/
theorem raw_data_consumed :
    ∀ (nm : String) (ds : List (Option CVal)) (rs : Nat)
      (m0 : Option (List (Option CVal × Nat))),
      mkDistribution nm (some ds) rs m0 = ⟨nm, none, rs, some (valueCounts ds)⟩ ∧
      (marginalKeys (valueCounts ds)).Nodup ∧
      (∀ k, k ∈ marginalKeys (valueCounts ds) ↔ k ∈ ds) ∧
      (∀ p ∈ valueCounts ds, p.2 = countOcc p.1 ds ∧ 0 < p.2) := by
  intro nm ds rs m0
  exact ⟨rfl, nodup_marginalKeys_valueCounts ds,
    fun k => mem_marginalKeys_valueCounts ds,
    fun p hp => valueCounts_counts hp⟩

/-- C1 counterexample: a CategoricalDistribution constructed from an
explicit choice list produces a constraint set whose rules contain no
dtype rule at all, against the claim that every variant emits one. -/
theorem categorical_constraint_lacks_dtype :
    mkCategoricalFromChoices "grade" [CVal.int 7, CVal.int 5] 0 =
      .ok ⟨"grade", 0, none, [CVal.int 5, CVal.int 7]⟩ ∧
    (CategoricalDistribution.as_constraint
        ⟨"grade", 0, none, [CVal.int 5, CVal.int 7]⟩).rules.all
      (fun r => r.op ≠ "dtype") = true := by
  exact ⟨by decide, by decide⟩

/-- C1 (amended): every ordered variant emits a dtype rule in
as_constraint, but CategoricalDistribution emits exactly the single in
rule and no dtype rule. -/
theorem as_constraint_dtype_rules :
    ∀ (f : FloatDistribution) (l : LogDistribution) (i : IntegerDistribution)
      (il : IntLogDistribution) (dd : DatetimeDistribution)
      (c : CategoricalDistribution),
      (∃ r ∈ f.as_constraint.rules, r.feature = f.name ∧ r.op = "dtype") ∧
      (∃ r ∈ l.as_constraint.rules, r.feature = l.name ∧ r.op = "dtype") ∧
      (∃ r ∈ i.as_constraint.rules, r.feature = i.name ∧ r.op = "dtype") ∧
      (∃ r ∈ il.as_constraint.rules, r.feature = il.name ∧ r.op = "dtype") ∧
      (∃ r ∈ dd.as_constraint.rules, r.feature = dd.name ∧ r.op = "dtype") ∧
      c.as_constraint.rules = [⟨c.name, "in", RuleVal.choiceList c.choices⟩] ∧
      (∀ r ∈ c.as_constraint.rules, r.op ≠ "dtype") := by
  intro f l i il dd c
  refine ⟨⟨⟨f.name, "dtype", .str "float"⟩, ?_, rfl, rfl⟩,
          ⟨⟨l.name, "dtype", .str "float"⟩, ?_, rfl, rfl⟩,
          ⟨⟨i.name, "dtype", .str "int"⟩, ?_, rfl, rfl⟩,
          ⟨⟨il.name, "dtype", .str "int"⟩, ?_, rfl, rfl⟩,
          ⟨⟨dd.name, "dtype", .str "datetime"⟩, ?_, rfl, rfl⟩,
          rfl, ?_⟩
  · simp [FloatDistribution.as_constraint]
  · simp [LogDistribution.as_constraint, LogDistribution.toFloat,
      FloatDistribution.as_constraint]
  · simp [IntegerDistribution.as_constraint]
  · simp [IntLogDistribution.as_constraint, IntLogDistribution.toInteger,
      IntegerDistribution.as_constraint]
  · simp [DatetimeDistribution.as_constraint]
  · intro r hr
    simp only [CategoricalDistribution.as_constraint, List.mem_singleton] at hr
    subst hr
    simp

/-- C2 counterexample: constructing a FloatDistribution with low = 5 and
high = 1 succeeds, and constructing a LogDistribution with negative low
succeeds, against the claim that construction fails. -/
theorem inverted_bounds_accepted :
    mkFloatDistribution "f" none 0 5 1 = .ok ⟨"f", 0, none, 5, 1⟩ ∧
    mkLogDistribution "g" none 0 (-1) 4 = .ok ⟨"g", 0, none, -1, 4⟩ ∧
    mkIntegerDistribution "i" none 0 3 0 1 = .ok ⟨"i", 0, none, 3, 0, 1⟩ ∧
    mkIntLogDistribution "il" none 0 (-3) (-5) 1 = .ok ⟨"il", 0, none, -3, -5, 1⟩ ∧
    mkDatetimeDistribution "d" none 0 9 3 1 120000000 =
      .ok ⟨"d", 0, none, 9, 3, 1, 120000000⟩ := by
  exact ⟨rfl, rfl, rfl, rfl, rfl⟩

/-- C2 (amended): no ordered variant validates its bounds at
construction: any low and high are accepted unchanged, including
low > high and non-positive bounds for the log variants; equal bounds
are accepted as well. -/
theorem no_range_validation :
    ∀ (nm : String) (rs : Nat) (lo hi : ℚ) (ilo ihi : Int),
      mkFloatDistribution nm none rs lo hi = .ok ⟨nm, rs, none, lo, hi⟩ ∧
      mkLogDistribution nm none rs lo hi = .ok ⟨nm, rs, none, lo, hi⟩ ∧
      mkIntegerDistribution nm none rs ilo ihi 1 = .ok ⟨nm, rs, none, ilo, ihi, 1⟩ ∧
      mkIntLogDistribution nm none rs ilo ihi 1 = .ok ⟨nm, rs, none, ilo, ihi, 1⟩ ∧
      mkDatetimeDistribution nm none rs ilo ihi 1 120000000 =
        .ok ⟨nm, rs, none, ilo, ihi, 1, 120000000⟩ := by
  intro nm rs lo hi ilo ihi
  exact ⟨rfl, rfl, rfl, rfl, rfl⟩

/-- C3 counterexample: from the data 2, 2, 1 the resolved categorical
choices are the marginal index in descending count order, not the
sorted de-duplicated observed keys the claim requires. -/
theorem marginal_choices_unsorted :
    (mkCategoricalFromData "c" [CVal.int 2, CVal.int 2, CVal.int 1] 0 []).choices
        = [CVal.int 2, CVal.int 1] ∧
    pySorted (distinctVals [CVal.int 2, CVal.int 2, CVal.int 1])
        = some [CVal.int 1, CVal.int 2] ∧
    ([CVal.int 2, CVal.int 1] : List CVal) ≠ [CVal.int 1, CVal.int 2] := by
  exact ⟨by decide, by decide, by decide⟩

/-- C3 (amended): with raw data present the resolved fields are derived
from the marginal, overriding caller-supplied values: ordered variants
get low and high equal to the minimum and maximum observed key, and
CategoricalDistribution gets the de-duplicated observed keys in the
order of the marginal index (descending count), not sorted by value. -/
theorem marginal_overrides_fields :
    ∀ (nm : String) (rs : Nat) (lo0 hi0 : ℚ) (ilo0 ihi0 : Int)
      (qs : List ℚ) (zs : List Int) (cs : List CVal) (choices0 : List CVal),
      (qs ≠ [] → ∃ d, mkFloatDistribution nm (some qs) rs lo0 hi0 = .ok d ∧
        d.marginal_distribution = some (valueCounts qs) ∧
        d.low ∈ qs ∧ d.high ∈ qs ∧ ∀ x ∈ qs, d.low ≤ x ∧ x ≤ d.high) ∧
      (zs ≠ [] → ∃ d, mkIntegerDistribution nm (some zs) rs ilo0 ihi0 1 = .ok d ∧
        d.marginal_distribution = some (valueCounts zs) ∧
        d.low ∈ zs ∧ d.high ∈ zs ∧ ∀ x ∈ zs, d.low ≤ x ∧ x ≤ d.high) ∧
      (zs ≠ [] → ∃ d,
        mkDatetimeDistribution nm (some zs) rs ilo0 ihi0 1 120000000 = .ok d ∧
        d.marginal_distribution = some (valueCounts zs) ∧
        d.low ∈ zs ∧ d.high ∈ zs ∧ ∀ x ∈ zs, d.low ≤ x ∧ x ≤ d.high) ∧
      ((mkCategoricalFromData nm cs rs choices0).marginal_distribution =
          some (valueCounts cs) ∧
        (mkCategoricalFromData nm cs rs choices0).choices =
          marginalKeys (valueCounts cs) ∧
        (mkCategoricalFromData nm cs rs choices0).choices.Nodup ∧
        (∀ v, v ∈ (mkCategoricalFromData nm cs rs choices0).choices ↔ v ∈ cs)) := by
  intro nm rs lo0 hi0 ilo0 ihi0 qs zs cs choices0
  refine ⟨?_, ?_, ?_, rfl, rfl, nodup_marginalKeys_valueCounts cs,
    fun v => mem_marginalKeys_valueCounts cs⟩
  · intro h
    obtain ⟨lo, hi, hres, hlomem, hhimem, hb⟩ := resolveBounds_data_spec qs lo0 hi0 h
    exact ⟨⟨nm, rs, some (valueCounts qs), lo, hi⟩,
      by simp [mkFloatDistribution, hres, Except.bind], rfl, hlomem, hhimem, hb⟩
  · intro h
    obtain ⟨lo, hi, hres, hlomem, hhimem, hb⟩ := resolveBounds_data_spec zs ilo0 ihi0 h
    exact ⟨⟨nm, rs, some (valueCounts zs), lo, hi, 1⟩,
      by simp [mkIntegerDistribution, hres, Except.bind], rfl, hlomem, hhimem, hb⟩
  · intro h
    obtain ⟨lo, hi, hres, hlomem, hhimem, hb⟩ := resolveBounds_data_spec zs ilo0 ihi0 h
    exact ⟨⟨nm, rs, some (valueCounts zs), lo, hi, 1, 120000000⟩,
      by simp [mkDatetimeDistribution, hres, Except.bind], rfl, hlomem, hhimem, hb⟩

/-- C3 witness: the amended statement applied to concrete data. -/
theorem marginal_overrides_fields_witness :
    ([(3 : ℚ), 1, 2] ≠ []) ∧
    (([(3 : ℚ), 1, 2] : List ℚ) ≠ [] → ∃ d,
      mkFloatDistribution "f" (some [(3 : ℚ), 1, 2]) 0 100 200 = .ok d ∧
      d.marginal_distribution = some (valueCounts [(3 : ℚ), 1, 2]) ∧
      d.low ∈ [(3 : ℚ), 1, 2] ∧ d.high ∈ [(3 : ℚ), 1, 2] ∧
      ∀ x ∈ [(3 : ℚ), 1, 2], d.low ≤ x ∧ x ≤ d.high) :=
  ⟨by decide,
   (marginal_overrides_fields "f" 0 100 200 0 0 [(3 : ℚ), 1, 2] [] [] []).1⟩

/-- C4 counterexample: for choices with two ints and one object the most
frequent tag is int, yet dtype returns object, against the claimed
majority vote. -/
theorem dtype_not_majority_vote :
    (mkCategoricalFromData "c"
        [CVal.obj "a", CVal.int 1, CVal.int 1, CVal.int 2, CVal.int 2, CVal.int 2]
        0 []).choices = [CVal.int 2, CVal.int 1, CVal.obj "a"] ∧
    (mkCategoricalFromData "c"
        [CVal.obj "a", CVal.int 1, CVal.int 1, CVal.int 2, CVal.int 2, CVal.int 2]
        0 []).dtype = "object" ∧
    ([CVal.int 2, CVal.int 1, CVal.obj "a"].countP CVal.isIntTag = 2 ∧
     [CVal.int 2, CVal.int 1, CVal.obj "a"].countP CVal.isObjTag = 1) := by
  exact ⟨by decide, by decide, by decide, by decide⟩

/-- C4 (amended): dtype returns the first tag with a non-zero count in
the fixed order object, float, int, regardless of which count is
largest, and object when choices is empty. -/
theorem dtype_first_nonzero_tag :
    ∀ d : CategoricalDistribution,
      d.dtype =
        if d.choices.any (fun v => ! v.isFloatTag && ! v.isIntTag) then "object"
        else if d.choices.any CVal.isFloatTag then "float"
        else if d.choices.any (fun v => ! v.isFloatTag && v.isIntTag) then "int"
        else "object" := by
  intro d
  have h : ∀ (p : CVal → Bool) (l : List CVal),
      (l.countP p ≠ 0) ↔ l.any p = true := by
    intro p l
    rw [Ne, List.countP_eq_zero, List.any_eq_true]
    push_neg
    simp
  simp only [CategoricalDistribution.dtype, h]

/-- C5 counterexample: FloatDistribution.includes applied to a
CategoricalDistribution with numeric choices inside its interval
returns true, against the claim that it returns false for any
categorical argument. -/
theorem float_includes_categorical :
    mkFloatDistribution "f" none 0 0 10 = .ok ⟨"f", 0, none, 0, 10⟩ ∧
    mkCategoricalFromChoices "c" [CVal.int 1, CVal.int 2] 0 =
      .ok ⟨"c", 0, none, [CVal.int 1, CVal.int 2]⟩ ∧
    FloatDistribution.includes ⟨"f", 0, none, 0, 10⟩
      (AnyDist.cat ⟨"c", 0, none, [CVal.int 1, CVal.int 2]⟩) = some true := by
  exact ⟨rfl, by decide, by decide⟩

/-- C5 (amended): only CategoricalDistribution checks the variant of the
other side (false for any non-categorical other); the ordered variants
compare min and max without a variant check, so a float interval
includes a numeric categorical whose extreme choices lie inside it. -/
theorem includes_variant_checks :
    (∀ (c : CategoricalDistribution) (o : AnyDist),
        (∀ oc, o ≠ AnyDist.cat oc) → c.includes o = false) ∧
    (∀ (f : FloatDistribution) (c : CategoricalDistribution) (lo hi : ℚ),
        (AnyDist.cat c).minP = some (.num lo) →
        (AnyDist.cat c).maxP = some (.num hi) →
        f.low ≤ lo → hi ≤ f.high →
        f.includes (AnyDist.cat c) = some true) := by
  constructor
  · intro c o hne
    cases o with
    | cat oc => exact absurd rfl (hne oc)
    | flt _ => rfl
    | logd _ => rfl
    | intd _ => rfl
    | intlog _ => rfl
    | dtd _ => rfl
  · intro f c lo hi hmin hmax h1 h2
    simp only [FloatDistribution.includes, hmin, hmax, Option.bind_eq_bind,
      Option.some_bind, pyLe]
    simp [h1, h2]

/-- C5 witness: the amended statement applied at concrete values. -/
theorem includes_variant_checks_witness :
    CategoricalDistribution.includes ⟨"c", 0, none, [CVal.int 1, CVal.int 2]⟩
        (AnyDist.flt ⟨"f", 0, none, 0, 10⟩) = false ∧
    FloatDistribution.includes ⟨"f", 0, none, 0, 10⟩
        (AnyDist.cat ⟨"c", 0, none, [CVal.int 1, CVal.int 2]⟩) = some true :=
  ⟨includes_variant_checks.1 _ _ (fun oc h => AnyDist.noConfusion h),
   includes_variant_checks.2 ⟨"f", 0, none, 0, 10⟩ ⟨"c", 0, none, [CVal.int 1, CVal.int 2]⟩
     1 2 (by decide) (by decide) (by norm_num) (by norm_num)⟩

/-- C7: on the same untouched distribution, a second sample call on the
generator state left behind by the first returns the same sequence: the
global generator is reseeded from random_state at the start of every
call, so the result does not depend on the incoming state. -/
theorem sample_deterministic :
    ∀ (c : CategoricalDistribution) (f : FloatDistribution)
      (l : LogDistribution) (i : IntegerDistribution)
      (il : IntLogDistribution) (dd : DatetimeDistribution)
      (log2f exp2f : ℚ → ℚ) (count g : Nat),
      (c.sample count (c.sample count g).2).1 = (c.sample count g).1 ∧
      (f.sample count (f.sample count g).2).1 = (f.sample count g).1 ∧
      ((LogDistribution.sampleWith log2f exp2f l count
          (LogDistribution.sampleWith log2f exp2f l count g).2).1 =
        (LogDistribution.sampleWith log2f exp2f l count g).1) ∧
      (i.sample count (i.sample count g).2).1 = (i.sample count g).1 ∧
      ((IntLogDistribution.sampleWith log2f exp2f il count
          (IntLogDistribution.sampleWith log2f exp2f il count g).2).1 =
        (IntLogDistribution.sampleWith log2f exp2f il count g).1) ∧
      (dd.sample count (dd.sample count g).2).1 = (dd.sample count g).1 := by
  intro c f l i il dd log2f exp2f count g
  exact ⟨rfl, rfl, rfl, rfl, rfl, rfl⟩

theorem ratUnit_lt_one (g : Nat) : ratUnit g < 1 := by
  unfold ratUnit
  rw [div_lt_one (by positivity)]
  exact_mod_cast Nat.mod_lt g (by positivity)

theorem searchIdx_lt_length {u : ℚ} {l : List ℚ} (h : ∃ c ∈ l, u < c) :
    searchIdx u l < l.length := by
  induction l with
  | nil => simp at h
  | cons c cs ih =>
    by_cases hc : u < c
    · simp [searchIdx, hc]
    · obtain ⟨d, hd, hud⟩ := h
      rcases List.mem_cons.mp hd with rfl | hd2
      · exact absurd hud hc
      · simp only [searchIdx, if_neg hc, List.length_cons]
        exact Nat.succ_lt_succ (ih ⟨d, hd2, hud⟩)

theorem cumsumFrom_length (a : ℚ) (l : List ℚ) :
    (cumsumFrom a l).length = l.length := by
  induction l generalizing a with
  | nil => rfl
  | cons x xs ih => simp [cumsumFrom, ih]

theorem cumsumFrom_sum_mem (a : ℚ) (l : List ℚ) (h : l ≠ []) :
    (a + l.sum) ∈ cumsumFrom a l := by
  induction l generalizing a with
  | nil => exact absurd rfl h
  | cons x xs ih =>
    cases xs with
    | nil => simp [cumsumFrom]
    | cons y ys =>
      have hmem := ih (a + x) (by simp)
      have heq : a + (x :: y :: ys).sum = a + x + (y :: ys).sum := by
        simp [List.sum_cons]
        ring
      rw [heq]
      exact List.mem_cons_of_mem _ hmem

theorem sum_map_div (l : List Nat) (T : ℚ) :
    (l.map (fun c : Nat => (c : ℚ) / T)).sum = ((l.sum : ℚ)) / T := by
  induction l with
  | nil => simp
  | cons x xs ih => simp [List.sum_cons, ih, add_div, Nat.cast_add]

theorem marginalProbs_sum {V : Type} (m : List (V × Nat))
    (h : 0 < totalCount m) : (marginalProbs m).sum = 1 := by
  unfold marginalProbs
  rw [sum_map_div, div_self]
  have : (0 : ℚ) < ((m.map Prod.snd).sum : ℚ) := by exact_mod_cast h
  exact this.ne'

theorem marginalProbs_length {V : Type} (m : List (V × Nat)) :
    (marginalProbs m).length = m.length := by
  simp [marginalProbs]

theorem getD_mem {V : Type} (l : List V) (i : Nat) (h : i < l.length)
    (dflt : V) : l.getD i dflt ∈ l := by
  induction l generalizing i with
  | nil => simp at h
  | cons x xs ih =>
    cases i with
    | zero => exact List.mem_cons_self _ _
    | succ j =>
      simp only [List.getD_cons_succ]
      exact List.mem_cons_of_mem _ (ih j (by simpa using h))

theorem npChoiceWeighted_spec {V : Type} (dflt : V) (states : List V)
    (cdf : List ℚ) (hlen : cdf.length = states.length)
    (hc : ∃ c ∈ cdf, (1 : ℚ) ≤ c) :
    ∀ (count g : Nat),
      (npChoiceWeighted dflt states cdf count g).1.length = count ∧
      ∀ v ∈ (npChoiceWeighted dflt states cdf count g).1, v ∈ states := by
  intro count
  induction count with
  | zero =>
    intro g
    exact ⟨rfl, by simp [npChoiceWeighted]⟩
  | succ k ih =>
    intro g
    obtain ⟨ihl, ihm⟩ := ih (lcg g)
    rcases hrec : npChoiceWeighted dflt states cdf k (lcg g) with ⟨rest, gf⟩
    rw [hrec] at ihl ihm
    have hidx : searchIdx (ratUnit g) cdf < states.length := by
      rw [← hlen]
      apply searchIdx_lt_length
      obtain ⟨c, hcm, hc1⟩ := hc
      exact ⟨c, hcm, lt_of_lt_of_le (ratUnit_lt_one g) hc1⟩
    constructor
    · simp [npChoiceWeighted, hrec, ihl]
    · intro v hv
      simp only [npChoiceWeighted, hrec] at hv
      rcases List.mem_cons.mp hv with rfl | hv2
      · exact getD_mem states _ hidx dflt
      · exact ihm v hv2

theorem sample_marginal_some {V : Type} (dflt : V) (m : List (V × Nat))
    (rs count g : Nat) (hm : 0 < totalCount m) :
    ∃ xs g2, sample_marginal dflt (some m) rs count g = (some xs, g2) ∧
      xs.length = count ∧ ∀ v ∈ xs, v ∈ marginalKeys m := by
  have hne : m ≠ [] := by
    intro h
    rw [h] at hm
    simp [totalCount] at hm
  have hemp : m.isEmpty = false := by
    cases m with
    | nil => exact absurd rfl hne
    | cons a l => rfl
  have hlen : (cumsum (marginalProbs m)).length = (marginalKeys m).length := by
    simp [cumsum, cumsumFrom_length, marginalProbs, marginalKeys]
  have hc : ∃ c ∈ cumsum (marginalProbs m), (1 : ℚ) ≤ c := by
    have hpne : marginalProbs m ≠ [] := by
      intro h
      have hl := marginalProbs_length m
      rw [h] at hl
      cases m with
      | nil => exact hne rfl
      | cons a l => simp at hl
    have hmem := cumsumFrom_sum_mem 0 (marginalProbs m) hpne
    rw [marginalProbs_sum m hm] at hmem
    exact ⟨0 + 1, hmem, by norm_num⟩
  obtain ⟨hl, hmem⟩ := npChoiceWeighted_spec dflt (marginalKeys m)
    (cumsum (marginalProbs m)) hlen hc count (npSeed rs)
  rcases hrec : npChoiceWeighted dflt (marginalKeys m)
      (cumsum (marginalProbs m)) count (npSeed rs) with ⟨xs, g2⟩
  rw [hrec] at hl hmem
  refine ⟨xs, g2, ?_, hl, hmem⟩
  simp [sample_marginal, hemp, hrec]

theorem marginalOrElse_some {V : Type} {mres : Option (List V) × Nat}
    {xs : List V} {g2 : Nat} (fb : Nat → List V × Nat)
    (h : mres = (some xs, g2)) : marginalOrElse mres fb = (xs, g2) := by
  rw [h]
  rfl

/-- The marginal path of any variant sample method: count weighted draws
from the observed states. -/
theorem variant_sample_marginal {V : Type} (dflt : V)
    (marg : Option (List (V × Nat))) (m : List (V × Nat))
    (rs count : Nat) (fb : Nat → List V × Nat)
    (hm : marg = some m) (ht : 0 < totalCount m) :
    (marginalOrElse (sample_marginal dflt marg rs count (npSeed rs)) fb).1.length
        = count ∧
    ∀ v ∈ (marginalOrElse (sample_marginal dflt marg rs count (npSeed rs)) fb).1,
      v ∈ marginalKeys m := by
  subst hm
  obtain ⟨xs, g2, heq, hl, hv⟩ := sample_marginal_some dflt m rs count (npSeed rs) ht
  rw [marginalOrElse_some fb heq]
  exact ⟨hl, hv⟩

/-- C6: when a marginal with positive total count is present, every
variant sample returns exactly count values, each one of the observed
marginal keys: the marginal path takes precedence over the variant
strategy. -/
theorem sample_marginal_precedence :
    (∀ (d : CategoricalDistribution) (m : List (CVal × Nat)) (count g : Nat),
      d.marginal_distribution = some m → 0 < totalCount m →
      (d.sample count g).1.length = count ∧
        ∀ v ∈ (d.sample count g).1, v ∈ marginalKeys m) ∧
    (∀ (d : FloatDistribution) (m : List (ℚ × Nat)) (count g : Nat),
      d.marginal_distribution = some m → 0 < totalCount m →
      (d.sample count g).1.length = count ∧
        ∀ v ∈ (d.sample count g).1, v ∈ marginalKeys m) ∧
    (∀ (log2f exp2f : ℚ → ℚ) (d : LogDistribution) (m : List (ℚ × Nat))
        (count g : Nat),
      d.marginal_distribution = some m → 0 < totalCount m →
      (LogDistribution.sampleWith log2f exp2f d count g).1.length = count ∧
        ∀ v ∈ (LogDistribution.sampleWith log2f exp2f d count g).1,
          v ∈ marginalKeys m) ∧
    (∀ (d : IntegerDistribution) (m : List (Int × Nat)) (count g : Nat),
      d.marginal_distribution = some m → 0 < totalCount m →
      (d.sample count g).1.length = count ∧
        ∀ v ∈ (d.sample count g).1, v ∈ marginalKeys m) ∧
    (∀ (log2f exp2f : ℚ → ℚ) (d : IntLogDistribution) (m : List (Int × Nat))
        (count g : Nat),
      d.marginal_distribution = some m → 0 < totalCount m →
      (IntLogDistribution.sampleWith log2f exp2f d count g).1.length = count ∧
        ∀ v ∈ (IntLogDistribution.sampleWith log2f exp2f d count g).1,
          v ∈ marginalKeys m) ∧
    (∀ (d : DatetimeDistribution) (m : List (Int × Nat)) (count g : Nat),
      d.marginal_distribution = some m → 0 < totalCount m →
      (d.sample count g).1.length = count ∧
        ∀ v ∈ (d.sample count g).1, v ∈ marginalKeys m) := by
  refine ⟨?_, ?_, ?_, ?_, ?_, ?_⟩
  · intro d m count g hm ht
    exact variant_sample_marginal default d.marginal_distribution m
      d.random_state count _ hm ht
  · intro d m count g hm ht
    exact variant_sample_marginal 0 d.marginal_distribution m
      d.random_state count _ hm ht
  · intro log2f exp2f d m count g hm ht
    exact variant_sample_marginal 0 d.marginal_distribution m
      d.random_state count _ hm ht
  · intro d m count g hm ht
    exact variant_sample_marginal 0 d.marginal_distribution m
      d.random_state count _ hm ht
  · intro log2f exp2f d m count g hm ht
    exact variant_sample_marginal 0 d.marginal_distribution m
      d.random_state count _ hm ht
  · intro d m count g hm ht
    exact variant_sample_marginal 0 d.marginal_distribution m
      d.random_state count _ hm ht

/-- C6 witness: the categorical statement applied to a concrete
distribution carrying a marginal. -/
theorem sample_marginal_precedence_witness :
    ((⟨"c", 7, some [(CVal.int 1, 2), (CVal.int 2, 1)],
        [CVal.int 1, CVal.int 2]⟩ :
      CategoricalDistribution).sample 3 0).1.length = 3 ∧
    ∀ v ∈ ((⟨"c", 7, some [(CVal.int 1, 2), (CVal.int 2, 1)],
        [CVal.int 1, CVal.int 2]⟩ :
      CategoricalDistribution).sample 3 0).1,
      v ∈ marginalKeys [(CVal.int 1, 2), (CVal.int 2, 1)] :=
  sample_marginal_precedence.1 _ [(CVal.int 1, 2), (CVal.int 2, 1)] 3 0 rfl
    (by decide)

theorem npChoiceN_mem {n count g k : Nat}
    (hk : k ∈ (npChoiceN n count g).1) : k < n := by
  unfold npChoiceN at hk
  by_cases hn : n = 0
  · simp [hn] at hk
  · rw [if_neg hn] at hk
    have haux : ∀ (c g2 : Nat), ∀ j ∈ (npChoiceNAux n c g2).1, j < n := by
      intro c
      induction c with
      | zero =>
        intro g2 j hj
        simp [npChoiceNAux] at hj
      | succ i ih =>
        intro g2 j hj
        rcases hrec : npChoiceNAux n i (lcg g2) with ⟨rest, gf⟩
        simp only [npChoiceNAux, hrec] at hj
        rcases List.mem_cons.mp hj with rfl | h2
        · exact Nat.mod_lt g2 (Nat.pos_of_ne_zero hn)
        · exact ih (lcg g2) j (by rw [hrec]; exact h2)
    exact haux count g k hk

/-- Grid shape of the fallback integer sampling path: every returned
value is low plus a grid index times the step, with the index at most
the floor quotient of the span by the step, hence inside the bounds. -/
theorem integer_sample_grid_aux (d : IntegerDistribution) (count g : Nat)
    (hmarg : d.marginal_distribution = none) (hstep : 1 ≤ d.step) :
    ∀ v ∈ (d.sample count g).1,
      ∃ k : Nat, (k : Int) ≤ Int.fdiv (d.high - d.low) d.step ∧
        v = d.low + k * d.step ∧ d.low ≤ v ∧ v ≤ d.high := by
  intro v hv
  simp only [IntegerDistribution.sample, hmarg] at hv
  rcases hrec : npChoiceN (Int.fdiv (d.high - d.low) d.step + 1).toNat count
      (npSeed d.random_state) with ⟨idxs, g3⟩
  have hv2 : v ∈ idxs.map (fun k : Nat => (k : Int) * d.step + d.low) := by
    have hred : sample_marginal 0 (none : Option (List (Int × Nat)))
        d.random_state count (npSeed d.random_state) =
        ((none : Option (List Int)), npSeed d.random_state) := rfl
    rw [hred] at hv
    simp only [marginalOrElse] at hv
    rw [hrec] at hv
    exact hv
  obtain ⟨k, hkmem, hkv⟩ := List.mem_map.mp hv2
  have hkn : k < (Int.fdiv (d.high - d.low) d.step + 1).toNat := by
    apply npChoiceN_mem
    rw [hrec]
    exact hkmem
  have hks : (k : Int) ≤ Int.fdiv (d.high - d.low) d.step := by omega
  have hstep0 : (0 : Int) ≤ d.step := le_trans zero_le_one hstep
  have hgrid : (k : Int) * d.step ≤ Int.fdiv (d.high - d.low) d.step * d.step :=
    mul_le_mul_of_nonneg_right hks hstep0
  have hspan : Int.fdiv (d.high - d.low) d.step * d.step ≤ d.high - d.low := by
    have hid := Int.fdiv_add_fmod (d.high - d.low) d.step
    have hnn := Int.fmod_nonneg' (d.high - d.low) (by omega : (0 : Int) < d.step)
    have hcomm : Int.fdiv (d.high - d.low) d.step * d.step =
        d.step * Int.fdiv (d.high - d.low) d.step := mul_comm _ _
    linarith [hid, hnn, hcomm]
  have hknn : (0 : Int) ≤ (k : Int) * d.step :=
    mul_nonneg (Int.natCast_nonneg k) hstep0
  refine ⟨k, hks, ?_, ?_, ?_⟩
  · omega
  · omega
  · omega

/-- C8: for an IntegerDistribution without a marginal, every sampled
value lies on the step grid: it equals low + k * step for a grid index k
at most the floor quotient of the span by the step, and hence lies in
the closed interval from low to high. -/
theorem integer_sample_grid :
    ∀ (d : IntegerDistribution) (count g : Nat),
      d.marginal_distribution = none → 1 ≤ d.step →
      ∀ v ∈ (d.sample count g).1,
        ∃ k : Nat, (k : Int) ≤ Int.fdiv (d.high - d.low) d.step ∧
          v = d.low + k * d.step ∧ d.low ≤ v ∧ v ≤ d.high := by
  intro d count g hmarg hstep
  exact integer_sample_grid_aux d count g hmarg hstep

/-- C8 witness: the grid statement applied to the distribution with
low 0, high 10, step 3 from the spec example, at the first value its
sample returns. -/
theorem integer_sample_grid_witness :
    ∃ k : Nat, (k : Int) ≤ Int.fdiv ((10 : Int) - 0) 3 ∧
      (9 : Int) = 0 + k * 3 ∧ (0 : Int) ≤ 9 ∧ (9 : Int) ≤ 10 :=
  integer_sample_grid ⟨"i", 0, none, 0, 10, 3⟩ 5 0 rfl (by decide) 9 (by decide)

/-- C10 counterexample: for the degenerate constructible distribution
with low = high = 0 and step 2, every value accepted by has is returned
by sample, so no value witnesses the claimed gap between membership and
the sampling range. -/
theorem degenerate_grid_no_gap :
    mkIntegerDistribution "i" none 0 0 0 2 = .ok ⟨"i", 0, none, 0, 0, 2⟩ ∧
    ¬ ∃ v : Int, (⟨"i", 0, none, 0, 0, 2⟩ : IntegerDistribution).has v = true ∧
      ∀ count g : Nat,
        v ∉ ((⟨"i", 0, none, 0, 0, 2⟩ : IntegerDistribution).sample count g).1 := by
  constructor
  · rfl
  · rintro ⟨v, hv, hall⟩
    have hv0 : v = 0 := by
      simp [IntegerDistribution.has] at hv
      omega
    exact hall 1 0 (by rw [hv0]; decide)

/-- C10 (amended): for an IntegerDistribution without a marginal with
step above 1 and low strictly below high, has accepts every integer in
the bounds, off the grid or not, while sample only ever returns grid
values; in particular low + 1 is accepted by has and never sampled. -/
theorem has_ignores_grid :
    ∀ (d : IntegerDistribution), d.marginal_distribution = none →
      1 < d.step → d.low < d.high →
      (∀ v : Int, d.low ≤ v → v ≤ d.high → d.has v = true) ∧
      (∀ (count g : Nat), ∀ v ∈ (d.sample count g).1,
        ∃ k : Nat, v = d.low + k * d.step) ∧
      (d.has (d.low + 1) = true ∧
        ∀ (count g : Nat),
          (d.low + 1) ∉ (d.sample count g).1) := by
  intro d hmarg hstep hlh
  refine ⟨?_, ?_, ?_, ?_⟩
  · intro v h1 h2
    simp [IntegerDistribution.has, h1, h2]
  · intro count g v hv
    obtain ⟨k, _, hkv, _, _⟩ :=
      integer_sample_grid_aux d count g hmarg (le_of_lt hstep) v hv
    exact ⟨k, hkv⟩
  · simp [IntegerDistribution.has]
    omega
  · intro count g hmem
    obtain ⟨k, _, hkv, _, _⟩ :=
      integer_sample_grid_aux d count g hmarg (le_of_lt hstep) _ hmem
    have hk1 : (k : Int) * d.step = 1 := by omega
    rcases Nat.eq_zero_or_pos k with rfl | hkpos
    · simp at hk1
    · have hk1' : (1 : Int) ≤ (k : Int) := by exact_mod_cast hkpos
      nlinarith [hk1, hk1', hstep]

/-- C10 witness: the amended statement applied to the distribution with
low 0, high 10, step 3. -/
theorem has_ignores_grid_witness :
    (∀ v : Int, (0 : Int) ≤ v → v ≤ 10 →
      (⟨"i", 0, none, 0, 10, 3⟩ : IntegerDistribution).has v = true) ∧
    (∀ (count g : Nat),
      ∀ v ∈ ((⟨"i", 0, none, 0, 10, 3⟩ : IntegerDistribution).sample count g).1,
        ∃ k : Nat, v = 0 + k * 3) ∧
    ((⟨"i", 0, none, 0, 10, 3⟩ : IntegerDistribution).has (0 + 1) = true ∧
      ∀ (count g : Nat),
        ((0 : Int) + 1) ∉
          ((⟨"i", 0, none, 0, 10, 3⟩ : IntegerDistribution).sample count g).1) :=
  has_ignores_grid ⟨"i", 0, none, 0, 10, 3⟩ rfl (by decide) (by decide)

end Synthcity
